import Mathlib

/-!
Verification of the core of the `code_cnt` line-of-code counter.

The embedding models the two algorithmic components of the repository:
the comment-aware line classifier (`src/logic/analysis.rs`) and the
language registry (`src/registry.rs`, config validation from
`src/config_reader.rs`).

Modelling conventions:
* Rust `&str` / `String` values are modelled as `List Char`; the lines
  the claims exercise are ASCII, where Rust's byte positions coincide
  with character positions.
* Rust `&mut bool` / `&mut self` parameters become explicit
  state-passing: a function mutating state returns it as part of a pair.
* `HashMap<OsString, LangId>` is modelled as an association list with
  `List.lookup`; the code only ever inserts at a vacant key and looks
  keys up, so any map model with those two operations is faithful.
* `HashSet<PathBuf>` is modelled as a duplicate-free insert on a list.
* File-system access (opening files, directory traversal) is abstracted:
  the line stream of a file and the traversal's file records are inputs.
-/

namespace CodeCnt

/-- Rust `str::trim_start`: drop leading whitespace. -/
def trimStart (l : List Char) : List Char :=
  l.dropWhile Char.isWhitespace

/-- Rust `str::trim`: drop leading and trailing whitespace. -/
def trim (l : List Char) : List Char :=
  ((l.dropWhile Char.isWhitespace).reverse.dropWhile Char.isWhitespace).reverse

/-- Rust `str::find(&str)`: byte index of the first occurrence of
`needle` as a contiguous substring, `none` when absent. -/
def findSub (needle : List Char) : List Char → Option Nat
  | [] => if needle.isEmpty then some 0 else none
  | c :: cs =>
    if needle.isPrefixOf (c :: cs) then some 0
    else (findSub needle cs).map (· + 1)

/-- Block-comment delimiters (`struct Block` in `registry.rs`).
Rust field `open` is a Lean keyword, hence the quoted name. -/
structure Block where
  «open» : List Char
  close : List Char
deriving DecidableEq

/-- Comment syntax of one language (`struct CommentType` in `registry.rs`). -/
structure CommentType where
  line : List (List Char)
  block : Option Block
deriving DecidableEq

/-- Rust `is_single_line_comment` (`analysis.rs:32`): the left-trimmed
line starts with one of the configured line-comment tokens. -/
def is_single_line_comment (line : List Char) (line_comment : List (List Char)) : Bool :=
  line_comment.any fun comment_type => comment_type.isPrefixOf (trimStart line)

/-- The scanning loop of `is_block_comment` (`analysis.rs:62-79`),
recursing on the remaining slice `trimmed[start..]`.  The `fuel`
argument makes the recursion structural; the wrapper passes
`rest.length`, which suffices because the Rust loop advances `start` by
at least one byte per iteration whenever both delimiters are non-empty
(an empty delimiter never reaches this code: Comment Spec validation
rejects empty block tokens). -/
def scanBlockFuel (line_comment : List (List Char)) (opn cls : List Char) :
    Nat → List Char → Bool → Bool → Bool × Bool
  | _, [], is_inside_block, code_present => (!code_present, is_inside_block)
  | 0, _ :: _, is_inside_block, code_present => (!code_present, is_inside_block)
  | fuel + 1, c :: cs, is_inside_block, code_present =>
    if opn.isPrefixOf (c :: cs) then
      scanBlockFuel line_comment opn cls fuel ((c :: cs).drop opn.length) true code_present
    else if cls.isPrefixOf (c :: cs) then
      scanBlockFuel line_comment opn cls fuel ((c :: cs).drop cls.length) false code_present
    else if !is_inside_block then
      if is_single_line_comment (c :: cs) line_comment then (!code_present, is_inside_block)
      else scanBlockFuel line_comment opn cls fuel cs is_inside_block true
    else
      scanBlockFuel line_comment opn cls fuel cs is_inside_block code_present

/-- Rust `is_block_comment` (`analysis.rs:41-81`).  The Rust function
takes `is_inside_block: &mut bool` and returns `bool`; here it returns
`(result, is_inside_block after the call)`. -/
def is_block_comment (line : List Char) (is_inside_block : Bool)
    (comment_type : CommentType) : Bool × Bool :=
  match comment_type.block with
  | none => (false, is_inside_block)
  | some block =>
    let trimmed := trim line
    if is_inside_block then
      match findSub block.close trimmed with
      | some idx =>
        let rest := trimmed.drop (idx + block.close.length)
        scanBlockFuel comment_type.line block.«open» block.close rest.length rest false false
      | none => (true, true)
    else
      scanBlockFuel comment_type.line block.«open» block.close trimmed.length trimmed false false

/-- Rust `is_line_of_code` (`analysis.rs:23-30`).  Returns
`(counts as code, is_inside_block after the call)`.  Note the Rust
short-circuit `!(is_single_line_comment(..) || is_block_comment(..))`:
when the line-comment test fires, `is_block_comment` is never called and
the carried state is left untouched. -/
def is_line_of_code (line : List Char) (is_inside_block : Bool)
    (comment_type : CommentType) : Bool × Bool :=
  if (trim line).isEmpty then (false, is_inside_block)
  else if is_single_line_comment line comment_type.line then (false, is_inside_block)
  else
    let r := is_block_comment line is_inside_block comment_type
    (!r.1, r.2)

/-- The classifier folded over a list of decoded lines, counting the
lines classified as code while threading `inside_block`
(the `filter(..).count()` of `count_lines`). -/
def countFrom (comments : CommentType) : List (List Char) → Bool → Nat
  | [], _ => 0
  | l :: ls, is_inside_block =>
    let r := is_line_of_code l is_inside_block comments
    (if r.1 then 1 else 0) + countFrom comments ls r.2

/-- Rust `count_lines` (`analysis.rs:6-21`) with file access abstracted:
the input is the file's line stream, where `none` marks a line whose
read failed (e.g. invalid UTF-8).  The Rust iterator is
`.lines().map_while(Result::ok)`, which ends the stream at the first
errored line; that is `takeWhile Option.isSome`.  The `is_file` check
and `File::open` errors concern the file system, not the line stream,
and are outside this model. -/
def count_lines (lines : List (Option (List Char))) (comments : CommentType) : Nat :=
  countFrom comments ((lines.takeWhile Option.isSome).filterMap id) false

/-- Line-comment token `//`. -/
def tokSlash : List Char := "//".toList

/-- Block-comment open token. -/
def tokOpen : List Char := "/*".toList

/-- Block-comment close token. -/
def tokClose : List Char := "*/".toList

/-- The C comment spec used by the built-in registry: line `//`,
block `/*`..`*/`. -/
def cComments : CommentType :=
  { line := [tokSlash], block := some { «open» := tokOpen, close := tokClose } }

example : is_line_of_code ("code /* comment */ code".toList) false cComments = (true, false) := by
  decide

example : is_line_of_code ("/* comment */".toList) false cComments = (false, false) := by
  decide

example : is_line_of_code ("/* comment".toList) false cComments = (false, true) := by
  decide

example : is_line_of_code ("// end */ code".toList) true cComments = (false, true) := by
  decide

example : is_line_of_code ("still inside".toList) true cComments = (false, true) := by
  decide

example : is_line_of_code ("end */ code".toList) true cComments = (true, false) := by
  decide

/-! Configuration validation (`config_reader.rs`, `registry.rs:38-131`). -/

/-- The `ConfigError` enum of `config_reader.rs`.  The `Io` and `Toml`
variants wrap foreign error values from file reading and TOML parsing,
which are outside this model and unreachable from the modelled
functions; they are omitted. -/
inductive ConfigError
  | DirectoryPathMissing
  | LanguagesMissing
  | LanguageNameMissing
  | CommentsMissing
  | BlockCommentMissing
  | InvalidBlockComment
  | LineCommentMissing
  | InvalidLineComment
  | ExtensionMissing
  | InvalidExtension
deriving DecidableEq

/-- Raw configured block section (`struct CfgBlock`). -/
structure CfgBlock where
  «open» : Option (List Char)
  close : Option (List Char)
deriving DecidableEq

/-- Raw configured comment section (`struct CfgCommentType`). -/
structure CfgCommentType where
  line : Option (List (List Char))
  block : Option CfgBlock
deriving DecidableEq

/-- Raw configured language (`struct CfgLangEntry`). -/
structure CfgLangEntry where
  name : Option (List Char)
  extensions : Option (List (List Char))
  comments : Option CfgCommentType
deriving DecidableEq

/-- Rust `impl TryFrom<CfgBlock> for Block` (`registry.rs:38-52`). -/
def Block.tryFrom (cfg_block : CfgBlock) : Except ConfigError Block :=
  match cfg_block.«open» with
  | some opn =>
    if opn.isEmpty then .error .InvalidBlockComment
    else
      match cfg_block.close with
      | some cls =>
        if cls.isEmpty then .error .InvalidBlockComment
        else .ok { «open» := opn, close := cls }
      | none => .error .InvalidBlockComment
  | none => .error .InvalidBlockComment

/-- Rust `impl TryFrom<CfgCommentType> for CommentType`
(`registry.rs:60-75`): the line-token list is validated first, then the
optional block section. -/
def CommentType.tryFrom (comment : CfgCommentType) : Except ConfigError CommentType :=
  match comment.line with
  | some line =>
    if line.isEmpty then .error .LineCommentMissing
    else
      match comment.block with
      | some b =>
        match Block.tryFrom b with
        | .ok block => .ok { line := line, block := some block }
        | .error e => .error e
      | none => .ok { line := line, block := none }
  | none => .error .LineCommentMissing

/-- Rust `struct LangSpec` (`registry.rs:77-82`). -/
structure LangSpec where
  name : List Char
  extensions : List (List Char)
  comments : CommentType
deriving DecidableEq

/-- Rust `struct LangStats` (`registry.rs:94-98`): the `HashSet<PathBuf>`
of counted files is modelled as a duplicate-free list. -/
structure LangStats where
  files : List (List Char)
  loc : Nat
deriving DecidableEq

/-- Rust `struct LangEntry` (`registry.rs:100-104`). -/
structure LangEntry where
  spec : LangSpec
  stats : LangStats
deriving DecidableEq

/-- Rust `impl TryFrom<CfgLangEntry> for LangEntry` (`registry.rs:106-131`). -/
def LangEntry.tryFrom (cfg_lang : CfgLangEntry) : Except ConfigError LangEntry :=
  match cfg_lang.name with
  | none => .error .LanguageNameMissing
  | some name =>
    match cfg_lang.extensions with
    | some extensions =>
      if extensions.isEmpty then .error .ExtensionMissing
      else
        match cfg_lang.comments with
        | none => .error .CommentsMissing
        | some comments =>
          match CommentType.tryFrom comments with
          | .error e => .error e
          | .ok ct =>
            .ok { spec := { name := name, extensions := extensions, comments := ct },
                  stats := { files := [], loc := 0 } }
    | none => .error .ExtensionMissing

/-! The language registry (`registry.rs:133-296`). -/

/-- Rust `enum LangRegistryError` (`registry.rs:10-13`); `LangId` is its
underlying `usize`. -/
inductive LangRegistryError
  | LangEntryDuplicated (id : Nat) (ext : List Char)
deriving DecidableEq

/-- Rust `struct LangRegistry` (`registry.rs:133-138`).  `map_ext_id` is
the `HashMap<OsString, LangId>` as an association list: `List.lookup`
is the map lookup, and inserting at a vacant key prepends. -/
structure LangRegistry where
  dir : List Char
  entries : List LangEntry
  map_ext_id : List (List Char × Nat)
deriving DecidableEq

/-- The extension loop of `add_entry` (`registry.rs:148-163`): each
extension is inserted at the vacant map key, or the loop stops with
`LangEntryDuplicated` naming the already-registered id.  Insertions made
before the conflicting extension persist (the Rust loop has already
mutated `self.map_ext_id` when it returns the error).  The second
`insert` at `registry.rs:161-162` rewrites the same key with the same
`LangId(self.entries.len())` value and is a no-op on the map contents. -/
def addExts (map : List (List Char × Nat)) (exts : List (List Char)) (id : Nat) :
    List (List Char × Nat) × Option LangRegistryError :=
  match exts with
  | [] => (map, none)
  | ext :: rest =>
    match List.lookup ext map with
    | some prev => (map, some (.LangEntryDuplicated prev ext))
    | none => addExts ((ext, id) :: map) rest id

/-- Rust `LangRegistry::add_entry` (`registry.rs:147-166`).  The Rust
method takes `&mut self` and returns `Result<(), LangRegistryError>`;
here it returns the updated registry and the optional error.  On a
duplicate extension the entry is not pushed and the map keeps the
insertions made before the conflict. -/
def add_entry (reg : LangRegistry) (spec : LangSpec) (stats : LangStats) :
    LangRegistry × Option LangRegistryError :=
  match addExts reg.map_ext_id spec.extensions reg.entries.length with
  | (map', some e) => ({ reg with map_ext_id := map' }, some e)
  | (map', none) =>
    ({ reg with map_ext_id := map',
                entries := reg.entries ++ [{ spec := spec, stats := stats }] }, none)

/-- Rust `LangRegistry::get_entry_id` (`registry.rs:175-177`). -/
def get_entry_id (reg : LangRegistry) (ext : List Char) : Option Nat :=
  List.lookup ext reg.map_ext_id

/-- Rust `LangRegistry::clear_locs` (`registry.rs:179-183`). -/
def clear_locs (reg : LangRegistry) : LangRegistry :=
  { reg with entries :=
      reg.entries.map fun entry => { entry with stats := { entry.stats with loc := 0 } } }

/-- Rust `LangRegistry::clear_paths` (`registry.rs:185-189`). -/
def clear_paths (reg : LangRegistry) : LangRegistry :=
  { reg with entries :=
      reg.entries.map fun entry => { entry with stats := { entry.stats with files := [] } } }

/-- Rust `struct Config` (`config_reader.rs:51-55`); the directory path
is carried opaquely. -/
structure Config where
  dir : List Char
  languages : List CfgLangEntry
deriving DecidableEq

/-- The language loop of `with_config` (`registry.rs:214-222`): the
first `TryFrom` validation failure aborts with that error; an
`add_entry` duplicate error is printed and otherwise ignored, keeping
the mutated registry. -/
def with_config_loop (reg : LangRegistry) : List CfgLangEntry → Except ConfigError LangRegistry
  | [] => .ok reg
  | language :: rest =>
    match LangEntry.tryFrom language with
    | .error e => .error e
    | .ok entry => with_config_loop (add_entry reg entry.spec entry.stats).1 rest

/-- Rust `LangRegistry::with_config` (`registry.rs:210-224`). -/
def with_config (cfg : Config) : Except ConfigError LangRegistry :=
  with_config_loop { dir := cfg.dir, entries := [], map_ext_id := [] } cfg.languages

/-- Comment spec of the built-in Rust language entry (`registry.rs:234-240`). -/
def rustComments : CommentType :=
  { line := [tokSlash, "///".toList, "//!".toList],
    block := some { «open» := tokOpen, close := tokClose } }

/-- Rust `LangRegistry::with_builtins_langs` (`registry.rs:226-275`):
two `add_entry` calls (Rust with `rs`; C with `c`, `h`) whose errors are
printed and otherwise ignored. -/
def with_builtins_langs (dir : List Char) : LangRegistry :=
  let reg : LangRegistry := { dir := dir, entries := [], map_ext_id := [] }
  let reg := (add_entry reg
    { name := "Rust".toList, extensions := ["rs".toList], comments := rustComments }
    { files := [], loc := 0 }).1
  (add_entry reg
    { name := "C".toList, extensions := ["c".toList, "h".toList], comments := cComments }
    { files := [], loc := 0 }).1

/-- One regular file produced by the directory traversal: its path, its
extension (as `path.extension()` yields it), and its line stream.
Traversal entries that are not regular files, or whose path has no
extension, never reach the lookup in `update_stats` and are not part of
the record list. -/
structure FileRec where
  path : List Char
  ext : List Char
  lines : List (Option (List Char))
deriving DecidableEq

/-- `HashSet::insert` on the modelled file set. -/
def insertPath (files : List (List Char)) (p : List Char) : List (List Char) :=
  if p ∈ files then files else files ++ [p]

/-- The body of the traversal loop of `update_stats`
(`registry.rs:286-293`): resolve the extension, count the file with the
entry's comment spec, insert the path and add the count.  When the
extension has no mapping the file is skipped entirely.  When the mapped
id is out of range Rust's `stats_mut` would panic on the `entries`
index; the model returns the registry unchanged in that case (the
branch is irrelevant to registries whose mapped ids are in range). -/
def update_stats_step (reg : LangRegistry) (file : FileRec) : LangRegistry :=
  match List.lookup file.ext reg.map_ext_id with
  | none => reg
  | some id =>
    match reg.entries[id]? with
    | none => reg
    | some entry =>
      let loc := count_lines file.lines entry.spec.comments
      let stats' : LangStats :=
        { files := insertPath entry.stats.files file.path, loc := entry.stats.loc + loc }
      { reg with entries := reg.entries.set id { entry with stats := stats' } }

/-- Rust `LangRegistry::update_stats` (`registry.rs:277-296`) with the
`WalkDir` traversal abstracted as the list of regular-file records: the
stats are cleared and the traversal loop is folded over the files.
Per-file `count_lines` I/O errors (`File::open` failures) are a
file-system matter outside the model; `count_lines` on a given line
stream is total. -/
def update_stats (reg : LangRegistry) (files : List FileRec) : LangRegistry :=
  List.foldl update_stats_step (clear_paths (clear_locs reg)) files

/-- A directory path for concrete registries (its content is never
inspected by the modelled operations). -/
def dDir : List Char := "./dummy_dir/".toList

/-! Claim theorems. -/

/-- C1: with line prefix `//` and block delimiters `/*`,`*/`, starting
outside a block: `code /* comment */ code` classifies as code and stays
outside; `/* comment */` alone classifies as not-code; an unterminated
`/* comment` classifies as not-code and enters the block state; and from
inside the block state, every line whose trimmed text does not contain
the close token classifies as not-code and stays inside the block. -/
theorem classify_c_block_examples :
    is_line_of_code ("code /* comment */ code".toList) false cComments = (true, false)
    ∧ is_line_of_code ("/* comment */".toList) false cComments = (false, false)
    ∧ is_line_of_code ("/* comment".toList) false cComments = (false, true)
    ∧ ∀ line : List Char, findSub tokClose (trim line) = none →
        is_line_of_code line true cComments = (false, true) := by
  refine ⟨by decide, by decide, by decide, ?_⟩
  intro line h
  unfold is_line_of_code
  by_cases he : (trim line).isEmpty
  · simp [he]
  · by_cases hs : is_single_line_comment line cComments.line
    · simp [he, hs]
    · simp only [he, hs, Bool.false_eq_true, if_false]
      unfold is_block_comment
      simp only [cComments, h, if_true]
      rfl

/-- C1 witness: the general part applied to a concrete line carrying no
close token while inside a block. -/
theorem classify_c_block_examples_witness :
    is_line_of_code ("still a comment".toList) true cComments = (false, true) :=
  classify_c_block_examples.2.2.2 ("still a comment".toList) (by decide)

/-- C2 counterexample: with `inside_block = true`, the line
`// end */ code` classifies as not-code and leaves `inside_block = true`
(the claim says it classifies as code and leaves `inside_block = false`):
the line-comment short-circuit in `is_line_of_code` fires before
`is_block_comment` is consulted, so the close token is never scanned. -/
theorem line_comment_short_circuit_inside_block_cex :
    is_line_of_code ("// end */ code".toList) true cComments = (false, true)
    ∧ is_line_of_code ("// end */ code".toList) true cComments ≠ (true, false) := by
  decide

/-- C2 (amended): the line-comment short-circuit applies regardless of
`inside_block`: whenever the left-trimmed line starts with a configured
line-comment prefix, `classify` returns false and leaves `inside_block`
unchanged — `is_block_comment` is never consulted on such a line. -/
theorem line_comment_short_circuit_unconditional
    (line : List Char) (b : Bool) (ct : CommentType)
    (h : is_single_line_comment line ct.line = true) :
    is_line_of_code line b ct = (false, b) := by
  unfold is_line_of_code
  by_cases he : (trim line).isEmpty
  · simp [he]
  · simp [he, h]

/-- C2 witness: the amended rule applied at the claim's concrete line
entered with `inside_block = true`. -/
theorem line_comment_short_circuit_unconditional_witness :
    is_line_of_code ("// end */ code".toList) true cComments = (false, true) :=
  line_comment_short_circuit_unconditional ("// end */ code".toList) true cComments (by decide)

/-- C3 counterexample: a decode failure truncates the scan instead of
being skipped.  With the line stream `code`, undecodable, `code`, the
count is 1 — the decodable line after the failure is not counted —
whereas with the failure removed the count is 2. -/
theorem count_lines_truncates_at_decode_error_cex :
    count_lines [some ("code".toList), none, some ("code".toList)] cComments = 1
    ∧ count_lines [some ("code".toList), some ("code".toList)] cComments = 2 := by
  decide

/-- C3 (amended): `count_lines` stops consuming the file at the first
line that fails to decode — the lines before it are classified and
counted, the undecodable line and every line after it are ignored, and
the already-accumulated count is returned (no error result). -/
theorem count_lines_stops_at_first_decode_error
    (pre post : List (Option (List Char))) (comments : CommentType)
    (h : ∀ l ∈ pre, l.isSome = true) :
    count_lines (pre ++ none :: post) comments = count_lines pre comments := by
  unfold count_lines
  have h2 : (none :: post).takeWhile Option.isSome = [] := by
    simp
  have happ : (pre ++ none :: post).takeWhile Option.isSome = pre ++ [] := by
    rw [List.takeWhile_append_of_pos h, h2]
  have hpre : pre.takeWhile Option.isSome = pre := by
    have h' := @List.takeWhile_append_of_pos _ Option.isSome pre [] h
    simpa using h'
  rw [happ, hpre, List.append_nil]

/-- C3 witness: the amended rule applied at the counterexample's line
stream. -/
theorem count_lines_stops_at_first_decode_error_witness :
    count_lines [some ("code".toList), none, some ("code".toList)] cComments
      = count_lines [some ("code".toList)] cComments :=
  count_lines_stops_at_first_decode_error [some ("code".toList)] [some ("code".toList)]
    cComments (by decide)

/-- A language entry spec claiming only extension `h`, which the
built-in registry already maps to C. -/
def hOnlySpec : LangSpec :=
  { name := "Header".toList, extensions := ["h".toList], comments := cComments }

/-- Fresh stats, as every caller of `add_entry` passes them. -/
def emptyStats : LangStats := { files := [], loc := 0 }

/-- Looking a key up below a freshly inserted different key is
unchanged. -/
theorem lookup_cons_of_ne (k e : List Char) (id : Nat) (map : List (List Char × Nat))
    (hne : k ≠ e) : List.lookup k ((e, id) :: map) = List.lookup k map := by
  have hbe : (k == e) = false := beq_eq_false_iff_ne.mpr hne
  simp [List.lookup_cons, hbe]

/-- When some extension in the list is already mapped, the extension
loop of `add_entry` stops with an error and every pre-existing mapping
survives. -/
theorem addExts_conflict (exts : List (List Char)) :
    ∀ (map : List (List Char × Nat)) (id : Nat),
      (∃ e ∈ exts, (List.lookup e map).isSome = true) →
      (addExts map exts id).2.isSome = true
      ∧ ∀ k v, List.lookup k map = some v →
          List.lookup k (addExts map exts id).1 = some v := by
  induction exts with
  | nil =>
    intro map id h
    rcases h with ⟨e, he, _⟩
    exact absurd he (List.not_mem_nil e)
  | cons ext rest ih =>
    intro map id h
    cases hl : List.lookup ext map with
    | some prev =>
      refine ⟨by simp [addExts, hl], ?_⟩
      intro k v hkv
      simpa [addExts, hl] using hkv
    | none =>
      rcases h with ⟨e, he, hesome⟩
      have hne : e ≠ ext := by
        intro hEq
        rw [hEq, hl] at hesome
        simp at hesome
      have herest : e ∈ rest := by
        rcases List.mem_cons.mp he with h1 | h1
        · exact absurd h1 hne
        · exact h1
      have hstill : (List.lookup e ((ext, id) :: map)).isSome = true := by
        rw [lookup_cons_of_ne e ext id map hne]
        exact hesome
      have hrec := ih ((ext, id) :: map) id ⟨e, herest, hstill⟩
      refine ⟨?_, ?_⟩
      · simpa [addExts, hl] using hrec.1
      · intro k v hkv
        have hkne : k ≠ ext := by
          intro hEq
          rw [hEq, hl] at hkv
          exact Option.noConfusion hkv
        have hk' : List.lookup k ((ext, id) :: map) = some v := by
          rw [lookup_cons_of_ne k ext id map hkne]
          exact hkv
        simpa [addExts, hl] using hrec.2 k v hk'

/-- C4 counterexample: registering a `Header` entry claiming extension
`h` (already claimed by the built-in C entry) does not add the entry at
all — `entries` stays at its previous length 2 — although the claim says
the entry is still added with its remaining extensions mapped. -/
theorem add_entry_conflict_entry_not_added_cex :
    (with_builtins_langs dDir).entries.length = 2
    ∧ (add_entry (with_builtins_langs dDir) hOnlySpec emptyStats).1.entries.length = 2
    ∧ ((add_entry (with_builtins_langs dDir) hOnlySpec emptyStats).2).isSome = true := by
  decide

/-- C4 (amended): when an entry is registered whose extension set
contains an extension already claimed (by an earlier entry, or earlier
in the same set), `add_entry` stops at the first conflict: it reports
the conflict as a non-fatal event (the constructors print it and
continue), every previously registered extension mapping is kept (first
registration wins), and the new entry itself is NOT added — `entries`
is unchanged; extensions of the new entry that were processed before
the conflicting one remain inserted in the extension index. -/
theorem add_entry_conflict_rejects_entry
    (reg : LangRegistry) (spec : LangSpec) (stats : LangStats)
    (h : ∃ e ∈ spec.extensions, (List.lookup e reg.map_ext_id).isSome = true) :
    ((add_entry reg spec stats).2).isSome = true
    ∧ (add_entry reg spec stats).1.entries = reg.entries
    ∧ ∀ k v, List.lookup k reg.map_ext_id = some v →
        List.lookup k (add_entry reg spec stats).1.map_ext_id = some v := by
  have hc := addExts_conflict spec.extensions reg.map_ext_id reg.entries.length h
  unfold add_entry
  rcases hx : addExts reg.map_ext_id spec.extensions reg.entries.length with ⟨map', err⟩
  rw [hx] at hc
  cases err with
  | none => simp at hc
  | some e =>
    refine ⟨by simp, by simp, ?_⟩
    intro k v hkv
    simpa using hc.2 k v hkv

/-- C4 witness: the amended rule at the counterexample's input, with the
kept earlier mapping instantiated at extension `h`. -/
theorem add_entry_conflict_rejects_entry_witness :
    ((add_entry (with_builtins_langs dDir) hOnlySpec emptyStats).2).isSome = true
    ∧ (add_entry (with_builtins_langs dDir) hOnlySpec emptyStats).1.entries
        = (with_builtins_langs dDir).entries
    ∧ List.lookup ("h".toList)
        (add_entry (with_builtins_langs dDir) hOnlySpec emptyStats).1.map_ext_id = some 1 :=
  ⟨(add_entry_conflict_rejects_entry (with_builtins_langs dDir) hOnlySpec emptyStats
      ⟨"h".toList, by decide, by decide⟩).1,
   (add_entry_conflict_rejects_entry (with_builtins_langs dDir) hOnlySpec emptyStats
      ⟨"h".toList, by decide, by decide⟩).2.1,
   (add_entry_conflict_rejects_entry (with_builtins_langs dDir) hOnlySpec emptyStats
      ⟨"h".toList, by decide, by decide⟩).2.2 ("h".toList) 1 (by decide)⟩

/-- A language entry spec whose extension set is `x` then `rs`; `rs` is
already claimed by the built-in Rust entry. -/
def xrsSpec : LangSpec :=
  { name := "X".toList, extensions := ["x".toList, "rs".toList], comments := cComments }

/-- C5: evaluation of the code at the failing input.  After
`add_entry` on the built-in registry with an entry whose extensions are
`x` then `rs`, the rejected call has already inserted `x ↦ LangId 2`
while `entries` still has length 2, so the stored id is NOT a valid
index into `entries`: the invariant the claim states is violated, and a
subsequent `update_stats` pass over a traversal containing a file with
extension `x` would index `entries` out of bounds in `stats_mut`. -/
theorem map_ext_id_dangling_after_conflict :
    List.lookup ("x".toList)
      ((add_entry (with_builtins_langs dDir) xrsSpec emptyStats).1.map_ext_id) = some 2
    ∧ (add_entry (with_builtins_langs dDir) xrsSpec emptyStats).1.entries.length = 2
    ∧ ¬ (2 < (add_entry (with_builtins_langs dDir) xrsSpec emptyStats).1.entries.length) := by
  decide

/-- A raw comment section with the line list absent and a block section
whose open token is absent: both the line rule and the block rule are
violated at once. -/
def bothBadCfgComment : CfgCommentType :=
  { line := none, block := some { «open» := none, close := some tokClose } }

/-- C6 counterexample: on a raw comment section with the line list
absent AND a bad block section, validation fails with
`LineCommentMissing`, not `InvalidBlockComment` — so "fails with
`InvalidBlockComment` exactly when a block section is present with a
missing/empty token" does not hold without the line check's priority. -/
theorem comment_validation_priority_cex :
    CommentType.tryFrom bothBadCfgComment = .error .LineCommentMissing
    ∧ CommentType.tryFrom bothBadCfgComment ≠ .error .InvalidBlockComment := by
  refine ⟨rfl, ?_⟩
  intro hcontra
  rw [show CommentType.tryFrom bothBadCfgComment = .error .LineCommentMissing from rfl]
    at hcontra
  exact absurd (Except.error.inj hcontra) (by decide)

/-- C6 (amended): Comment Spec validation is prioritized.  It fails with
`LineCommentMissing` exactly when the line-comment token list is absent
or empty (regardless of the block section); when the line list is
present and non-empty, it fails with `InvalidBlockComment` exactly when
a block section is present with its open or close token absent or empty;
and when additionally no block section is supplied at all it succeeds
with `block = none`. -/
theorem comment_validation_characterization (c : CfgCommentType) :
    (CommentType.tryFrom c = .error .LineCommentMissing ↔ (c.line = none ∨ c.line = some []))
    ∧ (CommentType.tryFrom c = .error .InvalidBlockComment ↔
        ((∃ l, c.line = some l ∧ l ≠ []) ∧
         ∃ b, c.block = some b ∧
           (b.«open» = none ∨ b.«open» = some [] ∨ b.close = none ∨ b.close = some [])))
    ∧ (∀ l, c.line = some l → l ≠ [] → c.block = none →
        CommentType.tryFrom c = .ok { line := l, block := none }) := by
  rcases c with ⟨cl, cb⟩
  rcases cb with _ | ⟨bo, bc⟩
  · rcases cl with _ | (_ | ⟨l0, ls⟩) <;> simp [CommentType.tryFrom, Block.tryFrom]
  · rcases cl with _ | (_ | ⟨l0, ls⟩) <;>
      rcases bo with _ | (_ | ⟨o0, os⟩) <;>
      rcases bc with _ | (_ | ⟨k0, ks⟩) <;>
      simp [CommentType.tryFrom, Block.tryFrom]

/-- C6 witness: the success case applied to a shell-style section with
only a `#` line comment and no block section. -/
theorem comment_validation_characterization_witness :
    CommentType.tryFrom { line := some ["#".toList], block := none }
      = .ok { line := ["#".toList], block := none } :=
  (comment_validation_characterization { line := some ["#".toList], block := none }).2.2
    ["#".toList] rfl (by decide) rfl

/-- The language loop of `with_config` surfaces the first validation
failure: languages before it convert successfully, the failing one
aborts with its error, whatever registry was accumulated so far is
dropped. -/
theorem with_config_loop_first_error (post : List CfgLangEntry) (e : ConfigError) :
    ∀ (pre : List CfgLangEntry) (reg : LangRegistry) (lang : CfgLangEntry),
      (∀ p ∈ pre, ∃ v, LangEntry.tryFrom p = .ok v) →
      LangEntry.tryFrom lang = .error e →
      with_config_loop reg (pre ++ lang :: post) = .error e := by
  intro pre
  induction pre with
  | nil =>
    intro reg lang _ hbad
    simp [with_config_loop, hbad]
  | cons p pre ih =>
    intro reg lang hok hbad
    rcases hok p (by simp) with ⟨v, hv⟩
    simp only [List.cons_append, with_config_loop, hv]
    exact ih _ lang (fun q hq => hok q (by simp [hq])) hbad

/-- C7: `with_config` returns an error — and hence no registry value —
as soon as any configured language fails validation, surfacing the error
of the first failing language; a partially-built registry is never
returned (the `Except` result is the error alone). -/
theorem with_config_first_failure (cfg : Config) (pre post : List CfgLangEntry)
    (lang : CfgLangEntry) (e : ConfigError)
    (hsplit : cfg.languages = pre ++ lang :: post)
    (hok : ∀ p ∈ pre, ∃ v, LangEntry.tryFrom p = .ok v)
    (hbad : LangEntry.tryFrom lang = .error e) :
    with_config cfg = .error e := by
  unfold with_config
  rw [hsplit]
  exact with_config_loop_first_error post e pre _ lang hok hbad

/-- A configured language whose name is missing. -/
def namelessCfgLang : CfgLangEntry :=
  { name := none,
    extensions := some ["rs".toList],
    comments := some { line := some [tokSlash], block := none } }

/-- C7 witness: a one-language config whose language lacks a name fails
with `LanguageNameMissing`. -/
theorem with_config_first_failure_witness :
    with_config { dir := dDir, languages := [namelessCfgLang] }
      = .error .LanguageNameMissing :=
  with_config_first_failure { dir := dDir, languages := [namelessCfgLang] } [] []
    namelessCfgLang .LanguageNameMissing rfl
    (fun p hp => absurd hp (List.not_mem_nil p)) rfl

/-- Setting an index to the value it already holds leaves the list
unchanged. -/
theorem set_of_getElem_eq : ∀ (l : List α) (i : Nat) (a : α), l[i]? = some a → l.set i a = l
  | [], i, a, h => by simp at h
  | x :: xs, 0, a, h => by
    simp only [List.getElem?_cons_zero, Option.some.injEq] at h
    simp [List.set, h]
  | x :: xs, i + 1, a, h => by
    simp only [List.getElem?_cons_succ] at h
    simp [List.set, set_of_getElem_eq xs i a h]

/-- One traversal step leaves the analyzed directory unchanged. -/
theorem update_stats_step_dir (reg : LangRegistry) (f : FileRec) :
    (update_stats_step reg f).dir = reg.dir := by
  cases h1 : List.lookup f.ext reg.map_ext_id with
  | none => simp [update_stats_step, h1]
  | some id =>
    cases h2 : reg.entries[id]? with
    | none => simp [update_stats_step, h1, h2]
    | some entry => simp [update_stats_step, h1, h2]

/-- One traversal step leaves the extension index unchanged. -/
theorem update_stats_step_map (reg : LangRegistry) (f : FileRec) :
    (update_stats_step reg f).map_ext_id = reg.map_ext_id := by
  cases h1 : List.lookup f.ext reg.map_ext_id with
  | none => simp [update_stats_step, h1]
  | some id =>
    cases h2 : reg.entries[id]? with
    | none => simp [update_stats_step, h1, h2]
    | some entry => simp [update_stats_step, h1, h2]

/-- One traversal step leaves every entry's language spec unchanged (it
only touches stats). -/
theorem update_stats_step_specs (reg : LangRegistry) (f : FileRec) :
    (update_stats_step reg f).entries.map LangEntry.spec
      = reg.entries.map LangEntry.spec := by
  cases h1 : List.lookup f.ext reg.map_ext_id with
  | none => simp [update_stats_step, h1]
  | some id =>
    cases h2 : reg.entries[id]? with
    | none => simp [update_stats_step, h1, h2]
    | some entry =>
      simp only [update_stats_step, h1, h2, List.map_set]
      apply set_of_getElem_eq
      rw [List.getElem?_map, h2]
      rfl

/-- The traversal fold leaves the directory unchanged. -/
theorem update_fold_dir (files : List FileRec) :
    ∀ reg : LangRegistry, (List.foldl update_stats_step reg files).dir = reg.dir := by
  induction files with
  | nil => intro reg; rfl
  | cons f fs ih =>
    intro reg
    rw [List.foldl_cons, ih, update_stats_step_dir]

/-- The traversal fold leaves the extension index unchanged. -/
theorem update_fold_map (files : List FileRec) :
    ∀ reg : LangRegistry,
      (List.foldl update_stats_step reg files).map_ext_id = reg.map_ext_id := by
  induction files with
  | nil => intro reg; rfl
  | cons f fs ih =>
    intro reg
    rw [List.foldl_cons, ih, update_stats_step_map]

/-- The traversal fold leaves every entry's language spec unchanged. -/
theorem update_fold_specs (files : List FileRec) :
    ∀ reg : LangRegistry,
      (List.foldl update_stats_step reg files).entries.map LangEntry.spec
        = reg.entries.map LangEntry.spec := by
  induction files with
  | nil => intro reg; rfl
  | cons f fs ih =>
    intro reg
    rw [List.foldl_cons, ih, update_stats_step_specs]

/-- Clearing locs then paths replaces every entry's stats by the fresh
stats, keeping the specs: the result is determined by the directory, the
extension index and the spec projection alone. -/
theorem clear_clear_eq (reg : LangRegistry) :
    clear_paths (clear_locs reg)
      = { dir := reg.dir,
          entries := (reg.entries.map LangEntry.spec).map
            (fun sp => { spec := sp, stats := { files := [], loc := 0 } }),
          map_ext_id := reg.map_ext_id } := by
  unfold clear_locs clear_paths
  simp only [List.map_map]
  rfl

/-- Two registries with the same directory, extension index and spec
projection produce the same `update_stats` result. -/
theorem update_stats_eq_of_same_skeleton (r r' : LangRegistry) (files : List FileRec)
    (hd : r.dir = r'.dir) (hm : r.map_ext_id = r'.map_ext_id)
    (hs : r.entries.map LangEntry.spec = r'.entries.map LangEntry.spec) :
    update_stats r files = update_stats r' files := by
  unfold update_stats
  have hclear : clear_paths (clear_locs r) = clear_paths (clear_locs r') := by
    rw [clear_clear_eq, clear_clear_eq, hd, hm, hs]
  rw [hclear]

/-- C8: `update_stats` is idempotent — it resets every entry's stats and
repopulates them from the traversed files, so running it twice over the
same traversal yields the very same registry, in particular identical
`(file_count, loc)` per language. -/
theorem update_stats_idempotent (reg : LangRegistry) (files : List FileRec) :
    update_stats (update_stats reg files) files = update_stats reg files := by
  apply update_stats_eq_of_same_skeleton
  · show (update_stats reg files).dir = reg.dir
    unfold update_stats
    rw [update_fold_dir]
    rfl
  · show (update_stats reg files).map_ext_id = reg.map_ext_id
    unfold update_stats
    rw [update_fold_map]
    rfl
  · show (update_stats reg files).entries.map LangEntry.spec
      = reg.entries.map LangEntry.spec
    unfold update_stats
    rw [update_fold_specs, clear_clear_eq]
    simp only [List.map_map]
    rfl

/-- Unfolding equation of `countFrom` on a cons cell. -/
theorem countFrom_cons (c : CommentType) (l : List Char) (ls : List (List Char)) (b : Bool) :
    countFrom c (l :: ls) b
      = (if (is_line_of_code l b c).1 then 1 else 0)
        + countFrom c ls (is_line_of_code l b c).2 := rfl

/-- A stream of successfully decoded lines is consumed whole by
`count_lines`. -/
theorem stream_of_decoded (l : List (List Char)) :
    ((l.map Option.some).takeWhile Option.isSome).filterMap id = l := by
  induction l with
  | nil => rfl
  | cons x xs ih =>
    simp only [List.map_cons, List.takeWhile_cons, Option.isSome_some, List.filterMap_cons]
    simpa using ih

/-- First line of the block-only file: the block opens and follows with
comment text. -/
def blockOpenLine : List Char := "/* text".toList

/-- Interior line of the block-only file: text inside the block. -/
def blockMidLine : List Char := "   text".toList

/-- Last line of the block-only file: comment text, then the close. -/
def blockCloseLine : List Char := "text */".toList

/-- A file that is one block comment spanning `n + 1` physical lines:
for `n = 0` open and close share the single line; otherwise the open
token is on the first line, the close token on the last, with `n - 1`
interior lines. -/
def blockOnlyFile : Nat → List (List Char)
  | 0 => ["/* text */".toList]
  | k + 1 => blockOpenLine :: (List.replicate k blockMidLine ++ [blockCloseLine])

/-- The interior and closing lines of a block contribute nothing while
the classifier is inside the block. -/
theorem countFrom_block_tail (k : Nat) :
    countFrom cComments (List.replicate k blockMidLine ++ [blockCloseLine]) true = 0 := by
  induction k with
  | zero => decide
  | succ k ih =>
    rw [List.replicate_succ, List.cons_append, countFrom_cons]
    rw [show is_line_of_code blockMidLine true cComments = (false, true) from by decide]
    simpa using ih

/-- C9: a file whose entire content is a single block comment spanning
`n + 1` physical lines (open token on the first line, close token on the
last, no other non-comment content) contributes exactly 0 lines of code,
regardless of its length. -/
theorem block_only_file_zero_loc (n : Nat) :
    count_lines ((blockOnlyFile n).map Option.some) cComments = 0 := by
  unfold count_lines
  rw [stream_of_decoded]
  cases n with
  | zero => decide
  | succ k =>
    show countFrom cComments
      (blockOpenLine :: (List.replicate k blockMidLine ++ [blockCloseLine])) false = 0
    rw [countFrom_cons]
    rw [show is_line_of_code blockOpenLine false cComments = (false, true) from by decide]
    simpa using countFrom_block_tail k

/-- A traversal record for a file `a.RS` whose extension `RS` differs
from the registered `rs` only by case. -/
def upperRsFile : FileRec :=
  { path := "a.RS".toList, ext := "RS".toList, lines := [some ("code".toList)] }

/-- A traversal step on a file whose extension has no mapping leaves the
registry untouched. -/
theorem update_stats_step_skip (reg : LangRegistry) (f : FileRec)
    (h : List.lookup f.ext reg.map_ext_id = none) : update_stats_step reg f = reg := by
  unfold update_stats_step
  rw [h]

/-- C10: extension resolution is case-sensitive and exact — `RS` finds
no entry in the built-in registry although `rs` maps to the Rust entry —
and a traversed file whose extension has no mapping is ignored by
`update_stats`: it changes no language's stats (and, being skipped
before any file access, can produce no error). -/
theorem extension_resolution_exact :
    get_entry_id (with_builtins_langs dDir) ("RS".toList) = none
    ∧ get_entry_id (with_builtins_langs dDir) ("rs".toList) = some 0
    ∧ ∀ (reg : LangRegistry) (files : List FileRec) (f : FileRec),
        List.lookup f.ext reg.map_ext_id = none →
        update_stats reg (files ++ [f]) = update_stats reg files := by
  refine ⟨by decide, by decide, ?_⟩
  intro reg files f h
  unfold update_stats
  rw [List.foldl_append]
  simp only [List.foldl_cons, List.foldl_nil]
  have hmap : (List.foldl update_stats_step (clear_paths (clear_locs reg)) files).map_ext_id
      = reg.map_ext_id := by
    rw [update_fold_map]
    rfl
  have hl : List.lookup f.ext
      (List.foldl update_stats_step (clear_paths (clear_locs reg)) files).map_ext_id
      = none := by
    rw [hmap]
    exact h
  exact update_stats_step_skip _ f hl

/-- C10 witness: appending the `a.RS` file to an empty traversal of the
built-in registry changes nothing. -/
theorem extension_resolution_exact_witness :
    update_stats (with_builtins_langs dDir) ([] ++ [upperRsFile])
      = update_stats (with_builtins_langs dDir) [] :=
  extension_resolution_exact.2.2 (with_builtins_langs dDir) [] upperRsFile (by decide)

end CodeCnt
